import Mathlib

/-!
Verification of the `FollowTheProcess/actions` Go library (a toolkit for
writing GitHub Actions): the workflow-command/annotation encoder in
package `log`, and the delimited key/value file writer in the root
`actions` package and in package `env`.

The Go code is shallowly embedded: Go strings become Lean `String`
(lists of characters), the random generator behind `randString` becomes
an explicit stream of draws `Nat → Nat`, and the file system / process
environment become explicit function parameters; each fallible writer
returns an explicit outcome value.
-/

namespace Actions

/-- Go `unicode.IsSpace`, used by `strings.TrimSpace`: reports whether a
rune is white space (ASCII space classes, NEL, NBSP and the Unicode
space separators). -/
def goIsSpace (c : Char) : Bool :=
  c = '\t' || c = '\n' || c = '\x0B' || c = '\x0C' || c = '\r' || c = ' ' ||
  c = '\x85' || c = '\xA0' || c = ' ' ||
  (0x2000 ≤ c.toNat && c.toNat ≤ 0x200A) ||
  c = ' ' || c = ' ' || c = ' ' || c = ' ' || c = '　'

/-- Character-list form of Go `strings.TrimSpace`: drop white space from
both ends. -/
def trimChars (l : List Char) : List Char :=
  ((l.dropWhile goIsSpace).reverse.dropWhile goIsSpace).reverse

/-- Go `strings.TrimSpace`. -/
def goTrim (s : String) : String := ⟨trimChars s.data⟩

/-- Go `strings.HasPrefix`, on the character-list representation. -/
def strStartsWith (p s : String) : Bool := List.isPrefixOf p.data s.data

/-- Apply a per-character substitution over a character list; this is the
single left-to-right pass performed by Go `strings.Replacer` when every
pattern is a single character (as in `messageEscaper` and
`propertyEscaper`, src/log/log.go lines 14-19 and src/unnamed/part_005
lines 17-29). -/
def escapeChars (f : Char → List Char) : List Char → List Char
  | [] => []
  | c :: rest => f c ++ escapeChars f rest

/-- The substitutions of `messageEscaper` (src/log/log.go lines 14-19). -/
def messageEscapeChar (c : Char) : List Char :=
  if c = '%' then ['%', '2', '5']
  else if c = '\r' then ['%', '0', 'D']
  else if c = '\n' then ['%', '0', 'A']
  else [c]

/-- The substitutions of `propertyEscaper` (src/unnamed/part_005 lines
17-23): message escaping plus colon and comma. -/
def propertyEscapeChar (c : Char) : List Char :=
  if c = '%' then ['%', '2', '5']
  else if c = '\r' then ['%', '0', 'D']
  else if c = '\n' then ['%', '0', 'A']
  else if c = ':' then ['%', '3', 'A']
  else if c = ',' then ['%', '2', 'C']
  else [c]

/-- `messageEscaper.Replace`. -/
def messageEscape (s : String) : String := ⟨escapeChars messageEscapeChar s.data⟩

/-- `propertyEscaper.Replace`. -/
def propertyEscape (s : String) : String := ⟨escapeChars propertyEscapeChar s.data⟩

/-- The inverse substitution of `messageEscaper` as described by the
spec: a single left-to-right pass replacing the sequences
percent-two-five, percent-zero-D, percent-zero-A by percent, CR, LF;
anything else is copied unchanged. -/
def unescapeChars : List Char → List Char
  | c :: x :: y :: rest =>
    if c = '%' ∧ x = '2' ∧ y = '5' then '%' :: unescapeChars rest
    else if c = '%' ∧ x = '0' ∧ y = 'D' then '\r' :: unescapeChars rest
    else if c = '%' ∧ x = '0' ∧ y = 'A' then '\n' :: unescapeChars rest
    else c :: unescapeChars (x :: y :: rest)
  | c :: rest => c :: unescapeChars rest
  | [] => []

/-- The inverse substitution on strings. -/
def messageUnescape (s : String) : String := ⟨unescapeChars s.data⟩

/-- `noRawSpecials l` holds when `l` contains no CR, no LF, and every
percent sign begins one of the three escape sequences: no raw occurrence
of the escaped characters remains. -/
def noRawSpecials : List Char → Bool
  | [] => true
  | c :: rest =>
    if c = '\r' ∨ c = '\n' then false
    else if c = '%' then
      match rest with
      | x :: y :: rest2 =>
        if (x = '2' ∧ y = '5') ∨ (x = '0' ∧ y = 'D') ∨ (x = '0' ∧ y = 'A') then
          noRawSpecials rest2
        else false
      | _ => false
    else noRawSpecials rest

/-- Decimal digit character, as printed by Go's integer formatting. -/
def digitChar (d : Nat) : Char :=
  if d = 0 then '0'
  else if d = 1 then '1'
  else if d = 2 then '2'
  else if d = 3 then '3'
  else if d = 4 then '4'
  else if d = 5 then '5'
  else if d = 6 then '6'
  else if d = 7 then '7'
  else if d = 8 then '8'
  else '9'

/-- Fuel-driven accumulator loop producing the decimal digits of `n` in
front of `acc`; `fuel ≥ n` makes it total. -/
def natReprAux : Nat → Nat → List Char → List Char
  | 0, _, acc => acc
  | fuel + 1, n, acc =>
    if n = 0 then acc else natReprAux fuel (n / 10) (digitChar (n % 10) :: acc)

/-- Decimal rendering of a natural number, as Go `text/template` prints a
`uint` field. -/
def natRepr (n : Nat) : String := if n = 0 then "0" else ⟨natReprAux n n []⟩

/-- The Go struct `annotation` (src/unnamed/part_004 lines 31-38): the
optional source-location metadata attached to a notice / warning / error
workflow command.  Go zero values (empty string, `0`) mean "absent". -/
structure annotation where
  Title : String := ""
  File : String := ""
  StartLine : Nat := 0
  EndLine : Nat := 0
  StartColumn : Nat := 0
  EndColumn : Nat := 0
deriving DecidableEq

/-- One annotation configuration step: the data captured by the
`Annotation` values returned by `Title`, `File`, `Lines` and `Span`
(src/unnamed/part_004 lines 61-144). -/
inductive Annot where
  | title (t : String)
  | file (f : String)
  | lines (s e : Nat)
  | span (s e : Nat)
deriving DecidableEq

/-- The clamping performed by `Lines` before building its closure
(src/unnamed/part_004 lines 84-97): start and end default to 1 when
below 1, and end is coerced up to start. -/
def linesClamp (s e : Nat) : Nat × Nat :=
  let s1 := if s < 1 then 1 else s
  let e1 := if e < 1 then 1 else e
  (s1, if e1 < s1 then s1 else e1)

/-- The clamping performed by `Span` before building its closure
(src/unnamed/part_004 lines 124-129): a non-positive or inverted column
range is zeroed so that it is omitted. -/
def spanClamp (s e : Nat) : Nat × Nat :=
  if s < 1 ∨ e < 1 ∨ e < s then (0, 0) else (s, e)

/-- Applying one configuration step to the accumulated annotation: the
bodies of the closures built by `Title`, `File`, `Lines` and `Span`
(src/unnamed/part_004).  `Lines` drops the range when no file is present
at the moment it runs; `Span` drops the column span when no file is
present or the current line range is not a single equal line. -/
def applyStep (a : annotation) : Annot → annotation
  | .title t => { a with Title := t }
  | .file f => { a with File := f }
  | .lines s e =>
    let c := linesClamp s e
    if a.File = "" then { a with StartLine := 0, EndLine := 0 }
    else { a with StartLine := c.1, EndLine := c.2 }
  | .span s e =>
    let c := spanClamp s e
    if a.File = "" ∨ a.StartLine ≠ a.EndLine then
      { a with StartColumn := 0, EndColumn := 0 }
    else { a with StartColumn := c.1, EndColumn := c.2 }

/-- The loop in `log` (src/log/log.go lines 140-144): apply every
configuration step, in order, to a fresh zero-valued annotation. -/
def applyAll (steps : List Annot) : annotation :=
  steps.foldl applyStep {}

/-- Piece of the annotation template for the title field
(src/unnamed/part_004 line 13). -/
def titlePiece (a : annotation) : String :=
  if a.Title ≠ "" then "title=" ++ propertyEscape a.Title else ""

/-- Piece of the annotation template for the file field (line 14): a
comma is inserted exactly when the title field was printed. -/
def filePiece (a : annotation) : String :=
  if a.File ≠ "" then
    (if a.Title ≠ "" then "," else "") ++ "file=" ++ propertyEscape a.File
  else ""

/-- Piece for the start line (line 15): comma exactly when the file
field was printed. -/
def linePiece (a : annotation) : String :=
  if a.StartLine ≠ 0 then
    (if a.File ≠ "" then "," else "") ++ "line=" ++ natRepr a.StartLine
  else ""

/-- Piece for the end line (line 16): comma exactly when the start line
was printed. -/
def endLinePiece (a : annotation) : String :=
  if a.EndLine ≠ 0 then
    (if a.StartLine ≠ 0 then "," else "") ++ "endLine=" ++ natRepr a.EndLine
  else ""

/-- Piece for the start column (line 17): comma exactly when the end
line was printed. -/
def colPiece (a : annotation) : String :=
  if a.StartColumn ≠ 0 then
    (if a.EndLine ≠ 0 then "," else "") ++ "col=" ++ natRepr a.StartColumn
  else ""

/-- Piece for the end column (line 18): comma exactly when the start
column was printed. -/
def endColPiece (a : annotation) : String :=
  if a.EndColumn ≠ 0 then
    (if a.StartColumn ≠ 0 then "," else "") ++ "endColumn=" ++ natRepr a.EndColumn
  else ""

/-- Modelled from the spec: the `String` method of `annotation`, which
executes `templ` (the parsed `annotationTemplate`, src/unnamed/part_004
lines 13-25), is not under src; the spec (section 4.3) and the template
constant itself fully determine it as the in-order concatenation of the
six conditional field pieces, each field printed as key=value with a
comma exactly when the immediately preceding eligible field was
printed.  The spec's only failure mode (degrade to the unannotated
message) cannot occur for pure text concatenation, so the render is
total. -/
def renderAnn (a : annotation) : String :=
  titlePiece a ++ filePiece a ++ linePiece a ++ endLinePiece a ++
    colPiece a ++ endColPiece a

/-- The common command renderer `log` (src/log/log.go lines 126-157),
with the written bytes returned instead of printed: empty messages
produce no output; otherwise the message is message-escaped, the
annotation steps are applied to a fresh annotation, and the command is
rendered with the annotation text when it is non-empty. -/
def logRender (cmd message : String) (annotations : List Annot) : String :=
  if message = "" then ""
  else if annotations.isEmpty then
    "::" ++ cmd ++ "::" ++ messageEscape message ++ "\n"
  else if renderAnn (applyAll annotations) = "" then
    "::" ++ cmd ++ "::" ++ messageEscape message ++ "\n"
  else
    "::" ++ cmd ++ " " ++ renderAnn (applyAll annotations) ++ "::" ++
      messageEscape message ++ "\n"

/-- Split a character list at commas; like Go `strings.Split` on a
single-character separator, the result always has one more chunk than
there are commas. -/
def splitAtComma : List Char → List (List Char)
  | [] => [[]]
  | c :: rest =>
    if c = ',' then [] :: splitAtComma rest
    else
      match splitAtComma rest with
      | [] => [[c]]
      | h :: t => (c :: h) :: t

/-- Split one `key=value` chunk at its first equals sign; a chunk with
no equals sign is a bare key with empty value. -/
def splitKVAux (acc : List Char) : List Char → String × String
  | [] => (⟨acc.reverse⟩, "")
  | c :: rest => if c = '=' then (⟨acc.reverse⟩, ⟨rest⟩) else splitKVAux (c :: acc) rest

/-- Re-parse a rendered annotation: split on commas, then split each
chunk at its first equals sign.  The empty render parses to no
fields. -/
def parseAnn (s : String) : List (String × String) :=
  if s.data = [] then [] else (splitAtComma s.data).map (splitKVAux [])

/-- The fields present in an annotation, as key/value pairs in the fixed
template order, values carrying the same escaping / decimal rendering
the template applies. -/
def presentFields (a : annotation) : List (String × String) :=
  (if a.Title ≠ "" then [("title", propertyEscape a.Title)] else []) ++
  (if a.File ≠ "" then [("file", propertyEscape a.File)] else []) ++
  (if a.StartLine ≠ 0 then [("line", natRepr a.StartLine)] else []) ++
  (if a.EndLine ≠ 0 then [("endLine", natRepr a.EndLine)] else []) ++
  (if a.StartColumn ≠ 0 then [("col", natRepr a.StartColumn)] else []) ++
  (if a.EndColumn ≠ 0 then [("endColumn", natRepr a.EndColumn)] else [])

/-- The coupling invariants of the data model (spec section 3) read off
a final annotation state: a line range only together with a file, and a
column span only together with a (single, equal) line range. -/
def wellCoupled (a : annotation) : Prop :=
  (a.StartLine ≠ 0 → a.File ≠ "") ∧ (a.StartColumn ≠ 0 → a.EndLine ≠ 0)

instance (a : annotation) : Decidable (wellCoupled a) := by
  unfold wellCoupled; infer_instance

/-- `true` when every `Lines` step in the list runs at a moment where
the accumulated annotation has no file — so that the apply-time
file-presence check of `Lines` (src/unnamed/part_004 lines 100-104)
zeroes the range each time. -/
def linesSeeNoFile (a : annotation) : List Annot → Bool
  | [] => true
  | st :: rest =>
    (match st with
     | .lines _ _ => a.File == ""
     | _ => true) &&
    linesSeeNoFile (applyStep a st) rest

/-- `true` when every `Span` step in the list runs at a moment where the
accumulated annotation has no file or has an unequal line range — so
that the apply-time check of `Span` (src/unnamed/part_004 lines 131-137)
zeroes the column span each time. -/
def spansSeeBlock (a : annotation) : List Annot → Bool
  | [] => true
  | st :: rest =>
    (match st with
     | .span _ _ => a.File == "" || !(a.StartLine == a.EndLine)
     | _ => true) &&
    spansSeeBlock (applyStep a st) rest

/-- Whether a character list contains two adjacent commas. -/
def hasDoubleComma : List Char → Bool
  | [] => false
  | [_] => false
  | a :: b :: rest => (a == ',' && b == ',') || hasDoubleComma (b :: rest)

/-- `StartGroup` (src/log/log.go lines 181-187), as the bytes written:
nothing for the empty title, otherwise the group command with the
property-escaped, whitespace-trimmed title. -/
def startGroup (title : String) : String :=
  if title = "" then ""
  else "::group::" ++ propertyEscape (goTrim title) ++ "\n"

/-- `EndGroup` (src/log/log.go lines 192-194): always writes the
endgroup command. -/
def endGroup : String := "::endgroup::\n"

/-- `WithGroup` (src/log/log.go lines 203-207), where `fnOut` is
whatever the closure printed: start, run the closure, and end the group
(the `defer` runs after `fn`). -/
def withGroup (title fnOut : String) : String :=
  startGroup title ++ fnOut ++ endGroup

/-- Result of one delimited write, which in Go is an `error` plus the
side effects on the target file and the live process environment.
`validationError` is returned before the destination is resolved, so it
carries no side effect; `configError` means the indirection variable was
missing; `openError` means the destination could not be opened;
`success` carries the bytes appended to the file and the optional live
environment mutation. -/
inductive WriteOutcome where
  | validationError (msg : String)
  | configError (msg : String)
  | openError (msg : String)
  | success (written : String) (envUpdate : Option (String × String))
deriving DecidableEq

/-- The alphabet of `randString` (src/actions.go lines 188-201). -/
def charsetList : List Char :=
  "abcdefghijklmnopqrstuvwxyzABCDEFGHIJKLMNOPQRSTUVWXYZ0123456789".data

/-- Character selected by one draw of `rand.IntN(len(charset))`: the
draw is reduced modulo the 62-character alphabet. -/
def charsetChar (k : Nat) : Char := charsetList.getD (k % 62) 'a'

/-- `randString` (src/actions.go lines 188-201): sixteen characters,
each chosen by the next draw of the process-wide random source, here an
explicit stream `draws`. -/
def randStringOf (draws : Nat → Nat) : String :=
  ⟨(List.range 16).map fun i => charsetChar (draws i)⟩

/-- The delimiter of one multiline write (src/actions.go line 172): the
literal tag followed by a fresh sixteen-character random string. -/
def delimiterOf (draws : Nat → Nat) : String :=
  "ghadelimiter_" ++ randStringOf draws

/-- The disallowed-key test of `setVarFile` for the environment target
(src/actions.go lines 149-155) and of `env.Set` (src/env/env.go line
58). -/
def isReservedKey (key : String) : Bool :=
  key = "CI" || key = "NODE_OPTIONS" ||
  strStartsWith "GITHUB_" key || strStartsWith "RUNNER_" key

/-- The bytes one successful `setVarFile` call appends (src/actions.go
lines 169-176): a delimiter block when the value is multiline, a plain
`key=value` line otherwise. -/
def recordFor (draws : Nat → Nat) (key value : String) : String :=
  if value.data.contains '\n' then
    key ++ "<<" ++ delimiterOf draws ++ "\n" ++ value ++ "\n" ++ delimiterOf draws
  else key ++ "=" ++ value ++ "\n"

/-- `setVarFile` (src/actions.go lines 137-186), the common body of
`SetEnv` (name GITHUB_ENV) and `SetOutput` (name GITHUB_OUTPUT).  `env`
is `os.Getenv` (empty string meaning unset), `fileOpens` tells whether
the append-mode open of a path succeeds, and `draws` is the random
source consumed by `randString` if this call writes a multiline value.
Key and value are whitespace-trimmed first; validation (emptiness, and
for the environment target the reserved keys) happens before the
indirection variable is read and before any file I/O; on success the
appended record is returned, together with the live `os.Setenv` mutation
performed for the environment target. -/
def setVarFile (env : String → String) (fileOpens : String → Bool)
    (draws : Nat → Nat) (name key value : String) : WriteOutcome :=
  let key := goTrim key
  let value := goTrim value
  if key = "" then .validationError "key cannot be empty"
  else if value = "" then .validationError "value cannot be empty"
  else if name = "GITHUB_ENV" ∧ isReservedKey key then
    .validationError ("setting $" ++ key ++ " is disallowed")
  else
    let path := env name
    if path = "" then .configError ("$" ++ name ++ " is not set or is empty")
    else if fileOpens path then
      .success (recordFor draws key value)
        (if name = "GITHUB_ENV" then some (key, value) else none)
    else .openError "could not open $GITHUB_OUTPUT file"

/-- `env.Set` (src/env/env.go lines 47-84).  Unlike `setVarFile` it
checks emptiness BEFORE trimming, resolves the path with `os.LookupEnv`,
and always performs the live `os.Setenv` mutation on success. -/
def envSet (lookup : String → Option String) (fileOpens : String → Bool)
    (draws : Nat → Nat) (key value : String) : WriteOutcome :=
  if key = "" then .validationError "key cannot be empty"
  else if value = "" then .validationError "value cannot be empty"
  else
    let key := goTrim key
    let value := goTrim value
    if isReservedKey key then
      .validationError ("setting $" ++ key ++ " is disallowed")
    else
      match lookup "GITHUB_ENV" with
      | none => .configError "$GITHUB_ENV is not set"
      | some path =>
        if fileOpens path then
          .success (recordFor draws key value) (some (key, value))
        else .openError "could not open $GITHUB_ENV file"

/-- The six conditional fields of the annotation template
(src/unnamed/part_004 lines 13-18) as a token list: for each field,
`none` when absent, otherwise the comma flag of the template (does the
immediately preceding eligible field render?) and the field text. -/
def fieldTokens (a : annotation) : List (Option (Bool × String)) :=
  [ if a.Title ≠ "" then some (false, "title=" ++ propertyEscape a.Title) else none,
    if a.File ≠ "" then some (a.Title != "", "file=" ++ propertyEscape a.File) else none,
    if a.StartLine ≠ 0 then some (a.File != "", "line=" ++ natRepr a.StartLine) else none,
    if a.EndLine ≠ 0 then some (a.StartLine != 0, "endLine=" ++ natRepr a.EndLine) else none,
    if a.StartColumn ≠ 0 then some (a.EndLine != 0, "col=" ++ natRepr a.StartColumn) else none,
    if a.EndColumn ≠ 0 then some (a.StartColumn != 0, "endColumn=" ++ natRepr a.EndColumn) else none ]

/-- Emit a token list the way the template renders it: skip absent
fields, print a comma for a set flag, then the field text. -/
def emitTokens : List (Option (Bool × String)) → String
  | [] => ""
  | none :: rest => emitTokens rest
  | some (b, s) :: rest => (if b then "," else "") ++ (s ++ emitTokens rest)

/-- Group an emitted token list into its comma-separated chunks: a
present token with a set flag starts a new chunk, one with a clear flag
is glued onto the current chunk. -/
def glueAux (cur : String) : List (Option (Bool × String)) → List String
  | [] => [cur]
  | none :: rest => glueAux cur rest
  | some (b, s) :: rest => if b then cur :: glueAux s rest else glueAux (cur ++ s) rest

/-- The comma-separated chunks of an emitted token list. -/
def glueTop : List (Option (Bool × String)) → List String
  | [] => []
  | none :: rest => glueTop rest
  | some (_, s) :: rest => glueAux s rest

/-- Join chunks with single commas. -/
def joinComma : List String → String
  | [] => ""
  | [x] => x
  | x :: y :: rest => x ++ "," ++ joinComma (y :: rest)

/-- Well-formedness of a token list: every present token has non-empty,
comma-free text, and a token may set its comma flag only when an
earlier token is present (`seen`). -/
def tokensOK : Bool → List (Option (Bool × String)) → Prop
  | _, [] => True
  | seen, none :: rest => tokensOK seen rest
  | seen, some (b, s) :: rest =>
    (b = true → seen = true) ∧ s.data ≠ [] ∧ ',' ∉ s.data ∧ tokensOK true rest

/-! Helper lemmas about the string representation. -/

theorem mk_data (s : String) : (⟨s.data⟩ : String) = s := by
  cases s
  rfl

theorem strData_append (a b : String) : (a ++ b).data = a.data ++ b.data := by
  cases a
  cases b
  rfl

theorem empty_append_str (s : String) : "" ++ s = s := by
  cases s
  show String.mk ([] ++ _) = _
  rw [List.nil_append]

/-! Claim C10: EndGroup is unconditional and WithGroup on the empty
title produces an unmatched endgroup command. -/

/-- C10: `EndGroup` always writes the endgroup command, whether or not a
group is open; `StartGroup ""` writes nothing, so `WithGroup "" fn`
writes only the closure's own output followed by the unmatched
`::endgroup::` line. -/
theorem claim_C10 :
    endGroup = "::endgroup::\n" ∧ startGroup "" = "" ∧
      ∀ fnOut : String, withGroup "" fnOut = fnOut ++ "::endgroup::\n" := by
  refine ⟨rfl, rfl, fun fnOut => ?_⟩
  show startGroup "" ++ fnOut ++ endGroup = fnOut ++ "::endgroup::\n"
  rw [show startGroup "" = "" from rfl, empty_append_str]
  rfl

/-! Claim C4: the message escaper's substitutions, absence of raw
special characters in its output, and the inverse-substitution round
trip. -/

theorem unescapeChars_cons_of_ne (c : Char) (l : List Char) (h : ¬c = '%') :
    unescapeChars (c :: l) = c :: unescapeChars l := by
  match l with
  | [] => rfl
  | [x] => rfl
  | x :: y :: rest => simp [unescapeChars, h]

theorem unescape_escape (l : List Char) :
    unescapeChars (escapeChars messageEscapeChar l) = l := by
  induction l with
  | nil => rfl
  | cons c rest ih =>
    show unescapeChars (messageEscapeChar c ++ escapeChars messageEscapeChar rest) = c :: rest
    by_cases hp : c = '%'
    · subst hp
      show unescapeChars ('%' :: '2' :: '5' :: escapeChars messageEscapeChar rest) = _
      rw [show ∀ t, unescapeChars ('%' :: '2' :: '5' :: t) = '%' :: unescapeChars t from
        fun t => by simp [unescapeChars], ih]
    · by_cases hr : c = '\r'
      · subst hr
        show unescapeChars ('%' :: '0' :: 'D' :: escapeChars messageEscapeChar rest) = _
        rw [show ∀ t, unescapeChars ('%' :: '0' :: 'D' :: t) = '\r' :: unescapeChars t from
          fun t => by simp [unescapeChars], ih]
      · by_cases hn : c = '\n'
        · subst hn
          show unescapeChars ('%' :: '0' :: 'A' :: escapeChars messageEscapeChar rest) = _
          rw [show ∀ t, unescapeChars ('%' :: '0' :: 'A' :: t) = '\n' :: unescapeChars t from
            fun t => by simp [unescapeChars], ih]
        · rw [show messageEscapeChar c = [c] by simp [messageEscapeChar, hp, hr, hn]]
          show unescapeChars (c :: escapeChars messageEscapeChar rest) = _
          rw [unescapeChars_cons_of_ne c _ hp, ih]

theorem noRawSpecials_cons_of_other (c : Char) (l : List Char)
    (h1 : ¬c = '%') (h2 : ¬c = '\r') (h3 : ¬c = '\n') :
    noRawSpecials (c :: l) = noRawSpecials l := by
  match l with
  | [] => simp [noRawSpecials, h1, h2, h3]
  | [x] => simp [noRawSpecials, h1, h2, h3]
  | x :: y :: r => simp [noRawSpecials, h1, h2, h3]

theorem noRaw_escape (l : List Char) :
    noRawSpecials (escapeChars messageEscapeChar l) = true := by
  induction l with
  | nil => rfl
  | cons c rest ih =>
    show noRawSpecials (messageEscapeChar c ++ escapeChars messageEscapeChar rest) = true
    by_cases hp : c = '%'
    · subst hp
      show noRawSpecials ('%' :: '2' :: '5' :: _) = true
      simpa [noRawSpecials] using ih
    · by_cases hr : c = '\r'
      · subst hr
        show noRawSpecials ('%' :: '0' :: 'D' :: _) = true
        simpa [noRawSpecials] using ih
      · by_cases hn : c = '\n'
        · subst hn
          show noRawSpecials ('%' :: '0' :: 'A' :: _) = true
          simpa [noRawSpecials] using ih
        · rw [show messageEscapeChar c = [c] by simp [messageEscapeChar, hp, hr, hn]]
          show noRawSpecials (c :: _) = true
          rw [noRawSpecials_cons_of_other c _ hp hr hn]
          exact ih

/-- C4: for every message containing a percent sign, CR, or LF, the
escaper substitutes percent to %25, CR to %0D and LF to %0A; the escaped
output contains no raw occurrence of those characters (every remaining
percent begins an escape sequence); and the inverse substitution
recovers the original message exactly. -/
theorem claim_C4 (s : String)
    (h : '%' ∈ s.data ∨ '\r' ∈ s.data ∨ '\n' ∈ s.data) :
    messageEscape "%" = "%25" ∧ messageEscape "\r" = "%0D" ∧
      messageEscape "\n" = "%0A" ∧
      noRawSpecials (messageEscape s).data = true ∧
      messageUnescape (messageEscape s) = s := by
  refine ⟨by decide, by decide, by decide, ?_, ?_⟩
  · exact noRaw_escape s.data
  · show (⟨unescapeChars (escapeChars messageEscapeChar s.data)⟩ : String) = s
    rw [unescape_escape]

/-- Witness for C4 at the concrete message "a%b\r\n". -/
theorem claim_C4_witness :
    messageEscape "%" = "%25" ∧ messageEscape "\r" = "%0D" ∧
      messageEscape "\n" = "%0A" ∧
      noRawSpecials (messageEscape "a%b\r\n").data = true ∧
      messageUnescape (messageEscape "a%b\r\n") = "a%b\r\n" :=
  claim_C4 "a%b\r\n" (Or.inl (by decide))

/-! Helper lemmas about trimming and the delimited writer. -/

theorem prefix_trimChars (p l : List Char) (h : p <+: l) (hne : p ≠ [])
    (h1 : p.dropWhile goIsSpace = p)
    (h2 : p.reverse.dropWhile goIsSpace = p.reverse) :
    p <+: trimChars l := by
  obtain ⟨t, rfl⟩ := h
  unfold trimChars
  rw [List.dropWhile_append, h1,
    if_neg (by simpa [List.isEmpty_eq_false] using hne),
    List.reverse_append, List.dropWhile_append, h2]
  by_cases hrev : (t.reverse.dropWhile goIsSpace).isEmpty = true
  · rw [if_pos hrev, List.reverse_reverse]
  · rw [if_neg hrev, List.reverse_append, List.reverse_reverse]
    exact List.prefix_append p _

theorem goTrim_keeps_start (p key : String) (h : strStartsWith p key = true)
    (hne : p.data ≠ [])
    (h1 : p.data.dropWhile goIsSpace = p.data)
    (h2 : p.data.reverse.dropWhile goIsSpace = p.data.reverse) :
    strStartsWith p (goTrim key) = true ∧ goTrim key ≠ "" := by
  rw [strStartsWith, List.isPrefixOf_iff_prefix] at h
  have htrim : p.data <+: trimChars key.data := prefix_trimChars _ _ h hne h1 h2
  constructor
  · rw [strStartsWith, List.isPrefixOf_iff_prefix]
    exact htrim
  · intro hempty
    have : trimChars key.data = [] := by
      have := congrArg String.data hempty
      simpa [goTrim] using this
    exact (htrim.ne_nil hne) this

theorem reserved_after_trim (key : String)
    (h : key = "CI" ∨ key = "NODE_OPTIONS" ∨
      strStartsWith "GITHUB_" key = true ∨ strStartsWith "RUNNER_" key = true) :
    isReservedKey (goTrim key) = true ∧ goTrim key ≠ "" := by
  rcases h with rfl | rfl | h | h
  · exact ⟨by decide, by decide⟩
  · exact ⟨by decide, by decide⟩
  · have := goTrim_keeps_start "GITHUB_" key h (by decide) (by decide) (by decide)
    exact ⟨by simp [isReservedKey, this.1], this.2⟩
  · have := goTrim_keeps_start "RUNNER_" key h (by decide) (by decide) (by decide)
    exact ⟨by simp [isReservedKey, this.1], this.2⟩

theorem setVarFile_success_eq (env : String → String) (fileOpens : String → Bool)
    (draws : Nat → Nat) (name key value : String)
    (hk : goTrim key ≠ "") (hv : goTrim value ≠ "")
    (hres : name = "GITHUB_ENV" → isReservedKey (goTrim key) = false)
    (hpath : env name ≠ "") (hopen : fileOpens (env name) = true) :
    setVarFile env fileOpens draws name key value =
      .success (recordFor draws (goTrim key) (goTrim value))
        (if name = "GITHUB_ENV" then some (goTrim key, goTrim value) else none) := by
  unfold setVarFile
  rw [if_neg hk, if_neg hv, if_neg ?_, if_neg hpath, if_pos hopen]
  rintro ⟨henv, hkey⟩
  rw [hres henv] at hkey
  exact Bool.false_ne_true hkey

/-! Claim C6: the reserved environment keys are rejected for the
environment target (before any I/O) but accepted for the output
target. -/

/-- C6: a key equal to CI or NODE_OPTIONS, or starting with GITHUB_ or
RUNNER_, makes `SetEnv` (setVarFile on GITHUB_ENV) and `env.Set` fail
with the validation error naming the offending (trimmed) key, whatever
the environment and file system hold (so the error precedes any I/O);
writing the same key to the output target is not rejected by the
reserved-key rule and succeeds whenever the output file is configured
and can be opened. -/
theorem claim_C6 (key value : String)
    (h : key = "CI" ∨ key = "NODE_OPTIONS" ∨
      strStartsWith "GITHUB_" key = true ∨ strStartsWith "RUNNER_" key = true)
    (hv : goTrim value ≠ "") :
    (∀ env fileOpens draws, setVarFile env fileOpens draws "GITHUB_ENV" key value =
      .validationError ("setting $" ++ goTrim key ++ " is disallowed")) ∧
    (∀ lookup fileOpens draws, value ≠ "" →
      envSet lookup fileOpens draws key value =
        .validationError ("setting $" ++ goTrim key ++ " is disallowed")) ∧
    (∀ env fileOpens draws, env "GITHUB_OUTPUT" ≠ "" →
      fileOpens (env "GITHUB_OUTPUT") = true →
      setVarFile env fileOpens draws "GITHUB_OUTPUT" key value =
        .success (recordFor draws (goTrim key) (goTrim value)) none) := by
  obtain ⟨hres, hk⟩ := reserved_after_trim key h
  have hkey_ne : key ≠ "" := by
    rintro rfl
    exact hk (by decide)
  refine ⟨fun env fileOpens draws => ?_, fun lookup fileOpens draws hvraw => ?_,
    fun env fileOpens draws hpath hopen => ?_⟩
  · unfold setVarFile
    rw [if_neg hk, if_neg hv, if_pos ⟨rfl, hres⟩]
  · unfold envSet
    rw [if_neg hkey_ne, if_neg hvraw, if_pos hres]
  · have := setVarFile_success_eq env fileOpens draws "GITHUB_OUTPUT" key value hk hv
      (fun hcontra => absurd hcontra (by decide)) hpath hopen
    rw [this, if_neg (by decide : ¬("GITHUB_OUTPUT" : String) = "GITHUB_ENV")]

/-- Witness for C6 at key CI, value v, with a configured output file. -/
theorem claim_C6_witness :
    (∀ env fileOpens draws, setVarFile env fileOpens draws "GITHUB_ENV" "CI" "v" =
      .validationError ("setting $" ++ goTrim "CI" ++ " is disallowed")) ∧
    (∀ lookup fileOpens draws, ("v" : String) ≠ "" →
      envSet lookup fileOpens draws "CI" "v" =
        .validationError ("setting $" ++ goTrim "CI" ++ " is disallowed")) ∧
    (∀ env fileOpens draws, env "GITHUB_OUTPUT" ≠ "" →
      fileOpens (env "GITHUB_OUTPUT") = true →
      setVarFile env fileOpens draws "GITHUB_OUTPUT" "CI" "v" =
        .success (recordFor draws (goTrim "CI") (goTrim "v")) none) :=
  claim_C6 "CI" "v" (Or.inl rfl) (by decide)

/-! Claim C7: empty-after-trim validation.  `setVarFile` trims before
checking, but `env.Set` (src/env/env.go lines 48-56) checks the raw
strings for emptiness BEFORE trimming, so a whitespace-only key or
value slips past its validation and reaches the file. -/

/-- Counterexample to C7: `env.Set` with the whitespace-only key " "
(and a configured, openable environment file) does not return a
validation error; it opens the file and appends the record "=v\n" for
the trimmed-to-empty key, and mutates the live environment. -/
theorem claim_C7_counterexample :
    goTrim " " = "" ∧
    envSet (fun _ => some "p") (fun _ => true) (fun _ => 0) " " "v" =
      .success "=v\n" (some ("", "v")) :=
  ⟨by decide, rfl⟩

/-- C7 (amended): for `SetEnv`/`SetOutput` (setVarFile) a key or value
that is empty after trimming is rejected with the validation error
naming which of the two was empty, whatever the environment and file
system hold — so before the indirection variable is consulted and
before any file is opened.  `env.Set` performs the same pre-I/O check
but on the untrimmed strings only: it rejects exactly the literally
empty key or value. -/
theorem claim_C7 :
    (∀ env fileOpens draws name key value, goTrim key = "" →
      setVarFile env fileOpens draws name key value =
        .validationError "key cannot be empty") ∧
    (∀ env fileOpens draws name key value, goTrim key ≠ "" → goTrim value = "" →
      setVarFile env fileOpens draws name key value =
        .validationError "value cannot be empty") ∧
    (∀ lookup fileOpens draws key value, key = "" →
      envSet lookup fileOpens draws key value =
        .validationError "key cannot be empty") ∧
    (∀ lookup fileOpens draws key value, key ≠ "" → value = "" →
      envSet lookup fileOpens draws key value =
        .validationError "value cannot be empty") := by
  refine ⟨fun env fileOpens draws name key value hk => ?_,
    fun env fileOpens draws name key value hk hv => ?_,
    fun lookup fileOpens draws key value hk => ?_,
    fun lookup fileOpens draws key value hk hv => ?_⟩
  · unfold setVarFile
    rw [if_pos hk]
  · unfold setVarFile
    rw [if_neg hk, if_pos hv]
  · unfold envSet
    rw [if_pos hk]
  · unfold envSet
    rw [if_neg hk, if_pos hv]

/-- Witness for C7: each of the four validation branches at a concrete
input. -/
theorem claim_C7_witness :
    setVarFile (fun _ => "p") (fun _ => true) (fun _ => 0) "GITHUB_OUTPUT" " " "v" =
      .validationError "key cannot be empty" ∧
    setVarFile (fun _ => "p") (fun _ => true) (fun _ => 0) "GITHUB_OUTPUT" "K" " \t" =
      .validationError "value cannot be empty" ∧
    envSet (fun _ => some "p") (fun _ => true) (fun _ => 0) "" "v" =
      .validationError "key cannot be empty" ∧
    envSet (fun _ => some "p") (fun _ => true) (fun _ => 0) "K" "" =
      .validationError "value cannot be empty" :=
  ⟨claim_C7.1 _ _ _ _ _ _ (by decide),
   claim_C7.2.1 _ _ _ _ _ _ (by decide) (by decide),
   claim_C7.2.2.1 _ _ _ _ _ rfl,
   claim_C7.2.2.2 _ _ _ _ _ (by decide) rfl⟩

/-! Claim C9: the writer records the trimmed key and value. -/

/-- C9: a successful `SetEnv`/`SetOutput` call appends the record built
from the whitespace-trimmed key and value (validation, multiline
detection, and the written bytes all use the trimmed strings), and for
the environment target the live environment is set to the trimmed pair;
a value whose trimmed form has no newline is written as a single-line
`key=value` record even if the raw value had surrounding newlines. -/
theorem claim_C9 (env : String → String) (fileOpens : String → Bool)
    (draws : Nat → Nat) (name key value : String)
    (hk : goTrim key ≠ "") (hv : goTrim value ≠ "")
    (hres : name = "GITHUB_ENV" → isReservedKey (goTrim key) = false)
    (hpath : env name ≠ "") (hopen : fileOpens (env name) = true) :
    setVarFile env fileOpens draws name key value =
      .success (recordFor draws (goTrim key) (goTrim value))
        (if name = "GITHUB_ENV" then some (goTrim key, goTrim value) else none) ∧
    ((goTrim value).data.contains '\n' = false →
      recordFor draws (goTrim key) (goTrim value) =
        goTrim key ++ "=" ++ goTrim value ++ "\n") := by
  refine ⟨setVarFile_success_eq env fileOpens draws name key value hk hv hres hpath hopen, ?_⟩
  intro hnl
  unfold recordFor
  rw [if_neg (by rw [hnl]; exact Bool.false_ne_true)]

/-- Witness for C9: the raw pair "  KEY  " / "\nvalue\n" is recorded as
the single-line record of the trimmed strings, and the live environment
receives the trimmed pair. -/
theorem claim_C9_witness :
    setVarFile (fun _ => "p") (fun _ => true) (fun _ => 0) "GITHUB_ENV" "  KEY  " "\nvalue\n" =
      .success (recordFor (fun _ => 0) (goTrim "  KEY  ") (goTrim "\nvalue\n"))
        (if ("GITHUB_ENV" : String) = "GITHUB_ENV"
          then some (goTrim "  KEY  ", goTrim "\nvalue\n") else none) ∧
    ((goTrim "\nvalue\n").data.contains '\n' = false →
      recordFor (fun _ => 0) (goTrim "  KEY  ") (goTrim "\nvalue\n") =
        goTrim "  KEY  " ++ "=" ++ goTrim "\nvalue\n" ++ "\n") :=
  claim_C9 (fun _ => "p") (fun _ => true) (fun _ => 0) "GITHUB_ENV" "  KEY  " "\nvalue\n"
    (by decide) (by decide) (fun _ => by decide) (by decide) rfl

/-! Claim C5: the multiline delimiter block and the freshness of the
random delimiter. -/

theorem charsetChar_mem (k : Nat) : charsetChar k ∈ charsetList := by
  unfold charsetChar
  have hlt : k % 62 < charsetList.length := by
    have h62 : charsetList.length = 62 := by decide
    rw [h62]
    exact Nat.mod_lt _ (by decide)
  rw [List.getD_eq_getElem?_getD, List.getElem?_eq_getElem hlt]
  simpa using List.getElem_mem hlt

theorem charsetChar_inj (x y : Nat) (h : charsetChar x = charsetChar y) :
    x % 62 = y % 62 := by
  have key : ∀ a < 62, ∀ b < 62,
      charsetList.getD a 'a' = charsetList.getD b 'a' → a = b := by decide
  have hx : x % 62 < 62 := Nat.mod_lt _ (by decide)
  have hy : y % 62 < 62 := Nat.mod_lt _ (by decide)
  exact key _ hx _ hy (by simpa [charsetChar] using h)

theorem randStringOf_eq_iff (d1 d2 : Nat → Nat) :
    randStringOf d1 = randStringOf d2 ↔ ∀ i < 16, d1 i % 62 = d2 i % 62 := by
  constructor
  · intro h i hi
    have hdata : (List.range 16).map (fun i => charsetChar (d1 i)) =
        (List.range 16).map (fun i => charsetChar (d2 i)) := congrArg String.data h
    exact charsetChar_inj _ _ (List.map_inj_left.mp hdata i (List.mem_range.mpr hi))
  · intro h
    show String.mk _ = String.mk _
    congr 1
    refine List.map_inj_left.mpr fun i hi => ?_
    have hmod := h i (List.mem_range.mp hi)
    show charsetList.getD (d1 i % 62) 'a' = charsetList.getD (d2 i % 62) 'a'
    rw [hmod]

/-- Counterexample to C5: the value "a\n" contains a newline, yet its
successful write appends the plain single-line record "K=a\n" and no
delimiter block at all, because the value is trimmed to the single line
"a" before the multiline check. -/
theorem claim_C5_counterexample :
    ("a\n".data.contains '\n' = true) ∧
    setVarFile (fun _ => "p") (fun _ => true) (fun _ => 0) "GITHUB_OUTPUT" "K" "a\n" =
      .success "K=a\n" none :=
  ⟨by decide, rfl⟩

/-- C5 (amended): for every key and value whose trimmed forms pass
validation and whose TRIMMED value still contains a newline, the
successful write appends exactly trimmedKey<<D, newline, the trimmed
value verbatim, newline, D — where D is the literal tag ghadelimiter_
followed by sixteen characters of the alphanumeric alphabet, computed
afresh from this call's own sixteen random draws; two delimiters (for
example those of two consecutive calls, whose draw segments are
disjoint) coincide exactly when their sixteen reduced draws coincide,
so distinct draws give distinct delimiter tokens. -/
theorem claim_C5 (env : String → String) (fileOpens : String → Bool)
    (draws : Nat → Nat) (name key value : String)
    (hk : goTrim key ≠ "") (hv : goTrim value ≠ "")
    (hres : name = "GITHUB_ENV" → isReservedKey (goTrim key) = false)
    (hpath : env name ≠ "") (hopen : fileOpens (env name) = true)
    (hnl : (goTrim value).data.contains '\n' = true) :
    setVarFile env fileOpens draws name key value =
      .success (goTrim key ++ "<<" ++ delimiterOf draws ++ "\n" ++
          goTrim value ++ "\n" ++ delimiterOf draws)
        (if name = "GITHUB_ENV" then some (goTrim key, goTrim value) else none) ∧
    delimiterOf draws = "ghadelimiter_" ++ randStringOf draws ∧
    (randStringOf draws).data.length = 16 ∧
    (∀ c ∈ (randStringOf draws).data, c ∈ charsetList) ∧
    (∀ d2 : Nat → Nat, randStringOf draws = randStringOf d2 ↔
      ∀ i < 16, draws i % 62 = d2 i % 62) := by
  refine ⟨?_, rfl, by simp [randStringOf], ?_, fun d2 => randStringOf_eq_iff draws d2⟩
  · rw [setVarFile_success_eq env fileOpens draws name key value hk hv hres hpath hopen]
    unfold recordFor
    rw [if_pos hnl]
  · intro c hc
    simp only [randStringOf] at hc
    obtain ⟨i, _, rfl⟩ := List.mem_map.mp hc
    exact charsetChar_mem _

/-- Witness for C5 at key K, value "a\nb", and the identity draw
stream. -/
theorem claim_C5_witness :
    setVarFile (fun _ => "p") (fun _ => true) (fun i => i) "GITHUB_OUTPUT" "K" "a\nb" =
      .success (goTrim "K" ++ "<<" ++ delimiterOf (fun i => i) ++ "\n" ++
          goTrim "a\nb" ++ "\n" ++ delimiterOf (fun i => i))
        (if ("GITHUB_OUTPUT" : String) = "GITHUB_ENV"
          then some (goTrim "K", goTrim "a\nb") else none) ∧
    (randStringOf (fun i => i)).data.length = 16 :=
  ⟨(claim_C5 (fun _ => "p") (fun _ => true) (fun i => i) "GITHUB_OUTPUT" "K" "a\nb"
      (by decide) (by decide) (fun hcontra => absurd hcontra (by decide)) (by decide)
      rfl (by decide)).1,
   (claim_C5 (fun _ => "p") (fun _ => true) (fun i => i) "GITHUB_OUTPUT" "K" "a\nb"
      (by decide) (by decide) (fun hcontra => absurd hcontra (by decide)) (by decide)
      rfl (by decide)).2.2.1⟩

/-! Claims C2 and C3: the file-presence check of Lines and the
single-equal-line check of Span run when the step is applied, against
the partial state — not against the final assembled state. -/

theorem append_empty_str (s : String) : s ++ "" = s := by
  cases s
  show String.mk (_ ++ []) = _
  rw [List.append_nil]

theorem linesBlind_zero (steps : List Annot) :
    ∀ a : annotation, linesSeeNoFile a steps = true →
      a.StartLine = 0 → a.EndLine = 0 →
      (steps.foldl applyStep a).StartLine = 0 ∧
        (steps.foldl applyStep a).EndLine = 0 := by
  induction steps with
  | nil => exact fun a _ h1 h2 => ⟨h1, h2⟩
  | cons st rest ih =>
    intro a hblind h1 h2
    simp only [linesSeeNoFile, Bool.and_eq_true] at hblind
    have hstep : (applyStep a st).StartLine = 0 ∧
        (applyStep a st).EndLine = 0 := by
      cases st with
      | title t => exact ⟨h1, h2⟩
      | file f => exact ⟨h1, h2⟩
      | lines s e =>
        have hf : a.File = "" := by simpa using hblind.1
        simp [applyStep, hf]
      | span s e =>
        constructor <;> (simp only [applyStep]; split <;> simp [h1, h2])
    exact ih (applyStep a st) hblind.2 hstep.1 hstep.2

theorem spansBlock_zero (steps : List Annot) :
    ∀ a : annotation, spansSeeBlock a steps = true →
      a.StartColumn = 0 → a.EndColumn = 0 →
      (steps.foldl applyStep a).StartColumn = 0 ∧
        (steps.foldl applyStep a).EndColumn = 0 := by
  induction steps with
  | nil => exact fun a _ h1 h2 => ⟨h1, h2⟩
  | cons st rest ih =>
    intro a hblind h1 h2
    simp only [spansSeeBlock, Bool.and_eq_true] at hblind
    have hstep : (applyStep a st).StartColumn = 0 ∧
        (applyStep a st).EndColumn = 0 := by
      cases st with
      | title t => exact ⟨h1, h2⟩
      | file f => exact ⟨h1, h2⟩
      | lines s e =>
        constructor <;> (simp only [applyStep]; split <;> simp [h1, h2])
      | span s e =>
        have hcond : a.File = "" ∨ a.StartLine ≠ a.EndLine := by
          have hb := hblind.1
          simp only [Bool.or_eq_true, beq_iff_eq, Bool.not_eq_eq_eq_not,
            Bool.not_true, beq_eq_false_iff_ne, ne_eq] at hb
          tauto
        simp [applyStep, if_pos hcond]
    exact ih (applyStep a st) hblind.2 hstep.1 hstep.2

/-- Counterexample to C2: after the steps File "f", Lines 1 2, File "",
the final assembled annotation has no file, yet the rendered command
carries line=1 and endLine=2 — the file-presence check ran when Lines
was applied (file present then), not against the final state. -/
theorem claim_C2_counterexample :
    (applyAll [.file "f", .lines 1 2, .file ""]).File = "" ∧
    logRender "notice" "m" [.file "f", .lines 1 2, .file ""] =
      "::notice line=1,endLine=2::m\n" :=
  ⟨rfl, by decide⟩

/-- C2 (amended): whenever every Lines step runs at a moment where the
accumulated annotation has no file (for example because no File step
precedes it), the final line range is zero and the rendered annotation
carries no line= and no endLine= field. -/
theorem claim_C2 (steps : List Annot)
    (hblind : linesSeeNoFile {} steps = true) :
    (applyAll steps).StartLine = 0 ∧ (applyAll steps).EndLine = 0 ∧
    linePiece (applyAll steps) = "" ∧ endLinePiece (applyAll steps) = "" ∧
    renderAnn (applyAll steps) =
      titlePiece (applyAll steps) ++ filePiece (applyAll steps) ++
        colPiece (applyAll steps) ++ endColPiece (applyAll steps) := by
  have h0 := linesBlind_zero steps {} hblind rfl rfl
  have h1 : (applyAll steps).StartLine = 0 := h0.1
  have h2 : (applyAll steps).EndLine = 0 := h0.2
  have hl : linePiece (applyAll steps) = "" := by simp [linePiece, h1]
  have hel : endLinePiece (applyAll steps) = "" := by simp [endLinePiece, h2]
  refine ⟨h1, h2, hl, hel, ?_⟩
  unfold renderAnn
  rw [hl, hel, append_empty_str, append_empty_str]

/-- Witness for C2 at the steps Title "t", Lines 1 4. -/
theorem claim_C2_witness :
    (applyAll [.title "t", .lines 1 4]).StartLine = 0 ∧
    (applyAll [.title "t", .lines 1 4]).EndLine = 0 ∧
    linePiece (applyAll [.title "t", .lines 1 4]) = "" ∧
    endLinePiece (applyAll [.title "t", .lines 1 4]) = "" ∧
    renderAnn (applyAll [.title "t", .lines 1 4]) =
      titlePiece (applyAll [.title "t", .lines 1 4]) ++
        filePiece (applyAll [.title "t", .lines 1 4]) ++
        colPiece (applyAll [.title "t", .lines 1 4]) ++
        endColPiece (applyAll [.title "t", .lines 1 4]) :=
  claim_C2 [.title "t", .lines 1 4] (by decide)

/-- Counterexample to C3: after File "f", Lines 5 5, Span 1 2,
Lines 5 6, the final annotation has a multi-line range (5 to 6), yet the
rendered command still carries col=1 and endColumn=2 — the single-line
check ran when Span was applied (range was 5,5 then), not against the
final state. -/
theorem claim_C3_counterexample :
    (applyAll [.file "f", .lines 5 5, .span 1 2, .lines 5 6]).StartLine ≠
      (applyAll [.file "f", .lines 5 5, .span 1 2, .lines 5 6]).EndLine ∧
    logRender "notice" "m" [.file "f", .lines 5 5, .span 1 2, .lines 5 6] =
      "::notice file=f,line=5,endLine=6,col=1,endColumn=2::m\n" :=
  ⟨by decide, by decide⟩

/-- C3 (amended): whenever every Span step runs at a moment where the
accumulated annotation has no file or a non-single line range, the
final column span is zero and the rendered annotation carries no col=
and no endColumn= field. -/
theorem claim_C3 (steps : List Annot)
    (hblind : spansSeeBlock {} steps = true) :
    (applyAll steps).StartColumn = 0 ∧ (applyAll steps).EndColumn = 0 ∧
    colPiece (applyAll steps) = "" ∧ endColPiece (applyAll steps) = "" ∧
    renderAnn (applyAll steps) =
      titlePiece (applyAll steps) ++ filePiece (applyAll steps) ++
        linePiece (applyAll steps) ++ endLinePiece (applyAll steps) := by
  have h0 := spansBlock_zero steps {} hblind rfl rfl
  have h1 : (applyAll steps).StartColumn = 0 := h0.1
  have h2 : (applyAll steps).EndColumn = 0 := h0.2
  have hc : colPiece (applyAll steps) = "" := by simp [colPiece, h1]
  have hec : endColPiece (applyAll steps) = "" := by simp [endColPiece, h2]
  refine ⟨h1, h2, hc, hec, ?_⟩
  unfold renderAnn
  rw [hc, hec, append_empty_str, append_empty_str]

/-- Witness for C3 at the steps File "f", Lines 15 19, Span 1 4. -/
theorem claim_C3_witness :
    (applyAll [.file "f", .lines 15 19, .span 1 4]).StartColumn = 0 ∧
    (applyAll [.file "f", .lines 15 19, .span 1 4]).EndColumn = 0 ∧
    colPiece (applyAll [.file "f", .lines 15 19, .span 1 4]) = "" ∧
    endColPiece (applyAll [.file "f", .lines 15 19, .span 1 4]) = "" ∧
    renderAnn (applyAll [.file "f", .lines 15 19, .span 1 4]) =
      titlePiece (applyAll [.file "f", .lines 15 19, .span 1 4]) ++
        filePiece (applyAll [.file "f", .lines 15 19, .span 1 4]) ++
        linePiece (applyAll [.file "f", .lines 15 19, .span 1 4]) ++
        endLinePiece (applyAll [.file "f", .lines 15 19, .span 1 4]) :=
  claim_C3 [.file "f", .lines 15 19, .span 1 4] (by decide)

/-! Claim C1: order of composition.  The coupling checks of Lines and
Span run at application time against the partial state, so permutations
of the step list can change the rendered line. -/

theorem logRender_state (cmd msg : String) (steps steps2 : List Annot)
    (h : applyAll steps = applyAll steps2) :
    logRender cmd msg steps = logRender cmd msg steps2 := by
  unfold logRender
  by_cases hm : msg = ""
  · rw [if_pos hm, if_pos hm]
  · rw [if_neg hm, if_neg hm]
    have hren : renderAnn (applyAll ([] : List Annot)) = "" := rfl
    cases h1 : steps.isEmpty with
    | true =>
      have hs : steps = [] := List.isEmpty_iff.mp h1
      cases h2 : steps2.isEmpty with
      | true => rw [if_pos rfl, if_pos rfl]
      | false =>
        rw [if_pos rfl, if_neg (Bool.false_ne_true),
          if_pos (by rw [← h, hs]; exact hren)]
    | false =>
      cases h2 : steps2.isEmpty with
      | true =>
        have hs2 : steps2 = [] := List.isEmpty_iff.mp h2
        rw [if_neg (Bool.false_ne_true), if_pos rfl,
          if_pos (by rw [h, hs2]; exact hren)]
      | false =>
        rw [if_neg (Bool.false_ne_true), if_neg (Bool.false_ne_true), h]

theorem applyStep_title_comm (a : annotation) (t : String) (st : Annot)
    (h : ∀ u, st ≠ .title u) :
    applyStep (applyStep a st) (.title t) =
      applyStep (applyStep a (.title t)) st := by
  cases st with
  | title u => exact absurd rfl (h u)
  | file f => rfl
  | lines s e =>
    cases a
    simp only [applyStep]
    split <;> rfl
  | span s e =>
    cases a
    simp only [applyStep]
    split <;> rfl

/-- Counterexample to C1: the two orders File "f", Lines 1 2 and
Lines 1 2, File "f" are permutations of each other, yet the first
renders file=f,line=1,endLine=2 and the second only file=f — the
file-presence check consulted the partial state at the moment Lines
ran. -/
theorem claim_C1_counterexample :
    List.Perm [Annot.file "f", Annot.lines 1 2] [Annot.lines 1 2, Annot.file "f"] ∧
    logRender "notice" "m" [Annot.file "f", Annot.lines 1 2] ≠
      logRender "notice" "m" [Annot.lines 1 2, Annot.file "f"] :=
  ⟨List.Perm.swap (Annot.lines 1 2) (Annot.file "f") [], by decide⟩

/-- C1 (amended): the rendered line is a function of the final
assembled annotation alone — two step lists assembling the same final
state render identically for every command and message — and Title
steps commute with every non-Title step; but the coupling checks of
Lines and Span are evaluated at application time against the partial
state, so general permutations may assemble different states and render
different lines. -/
theorem claim_C1 :
    (∀ cmd msg : String, ∀ steps steps2 : List Annot,
      applyAll steps = applyAll steps2 →
      logRender cmd msg steps = logRender cmd msg steps2) ∧
    (∀ cmd msg : String, ∀ pre post : List Annot, ∀ t : String, ∀ st : Annot,
      (∀ u, st ≠ .title u) →
      logRender cmd msg (pre ++ st :: .title t :: post) =
        logRender cmd msg (pre ++ .title t :: st :: post)) := by
  refine ⟨fun cmd msg steps steps2 h => logRender_state cmd msg steps steps2 h,
    fun cmd msg pre post t st h => ?_⟩
  apply logRender_state
  unfold applyAll
  rw [List.foldl_append, List.foldl_append]
  simp only [List.foldl_cons]
  rw [applyStep_title_comm _ t st h]

/-- Witness for C1: two Title-only lists assembling the same state
render identically, and swapping an adjacent File step with a Title
step leaves the render unchanged. -/
theorem claim_C1_witness :
    logRender "notice" "m" [Annot.title "x", Annot.title "a"] =
      logRender "notice" "m" [Annot.title "a"] ∧
    logRender "notice" "m" ([] ++ Annot.file "f" :: Annot.title "t" :: []) =
      logRender "notice" "m" ([] ++ Annot.title "t" :: Annot.file "f" :: []) :=
  ⟨claim_C1.1 "notice" "m" [Annot.title "x", Annot.title "a"] [Annot.title "a"] (by decide),
   claim_C1.2 "notice" "m" [] [] "t" (Annot.file "f")
     (fun u hu => Annot.noConfusion hu)⟩

/-! Claim C8 machinery: the template's comma discipline and the
re-parse of the rendered annotation. -/

theorem str_ext (a b : String) (h : a.data = b.data) : a = b := by
  cases a
  cases b
  exact congrArg String.mk h

theorem str_append_assoc (a b c : String) : a ++ b ++ c = a ++ (b ++ c) := by
  apply str_ext
  rw [strData_append, strData_append, strData_append, strData_append,
    List.append_assoc]

theorem joinComma_cons (x : String) (l : List String) (h : l ≠ []) :
    joinComma (x :: l) = x ++ "," ++ joinComma l := by
  cases l with
  | nil => exact absurd rfl h
  | cons y rest => rfl

theorem glueAux_ne_nil (tl : List (Option (Bool × String))) :
    ∀ cur, glueAux cur tl ≠ [] := by
  induction tl with
  | nil => intro cur; simp [glueAux]
  | cons tok rest ih =>
    intro cur
    cases tok with
    | none => exact ih cur
    | some bs =>
      obtain ⟨b, s⟩ := bs
      cases b with
      | false => simpa [glueAux] using ih (cur ++ s)
      | true => simp [glueAux]

theorem joinComma_glueAux (tl : List (Option (Bool × String))) :
    ∀ cur, joinComma (glueAux cur tl) = cur ++ emitTokens tl := by
  induction tl with
  | nil =>
    intro cur
    show joinComma [cur] = cur ++ ""
    rw [append_empty_str]
    rfl
  | cons tok rest ih =>
    intro cur
    cases tok with
    | none => simpa [glueAux, emitTokens] using ih cur
    | some bs =>
      obtain ⟨b, s⟩ := bs
      cases b with
      | false =>
        show joinComma (glueAux (cur ++ s) rest) = cur ++ ("" ++ (s ++ emitTokens rest))
        rw [ih (cur ++ s), empty_append_str, str_append_assoc]
      | true =>
        show joinComma (cur :: glueAux s rest) = cur ++ ("," ++ (s ++ emitTokens rest))
        rw [joinComma_cons cur _ (glueAux_ne_nil rest s), ih s, str_append_assoc]

theorem emit_eq_joinComma (tl : List (Option (Bool × String)))
    (h : tokensOK false tl) : emitTokens tl = joinComma (glueTop tl) := by
  induction tl with
  | nil => rfl
  | cons tok rest ih =>
    cases tok with
    | none => exact ih h
    | some bs =>
      obtain ⟨b, s⟩ := bs
      have hb : b = false := by
        cases b with
        | false => rfl
        | true => exact absurd (h.1 rfl) (by simp)
      subst hb
      show ("" ++ (s ++ emitTokens rest)) = joinComma (glueAux s rest)
      rw [joinComma_glueAux rest s, empty_append_str]

theorem glueAux_good (tl : List (Option (Bool × String))) :
    ∀ cur, cur.data ≠ [] → ',' ∉ cur.data → tokensOK true tl →
      ∀ s ∈ glueAux cur tl, s.data ≠ [] ∧ ',' ∉ s.data := by
  induction tl with
  | nil =>
    intro cur h1 h2 _ s hs
    simp only [glueAux, List.mem_singleton] at hs
    subst hs
    exact ⟨h1, h2⟩
  | cons tok rest ih =>
    intro cur h1 h2 hok s hs
    cases tok with
    | none => exact ih cur h1 h2 hok s hs
    | some bs =>
      obtain ⟨b, t⟩ := bs
      obtain ⟨-, ht1, ht2, hrest⟩ := hok
      cases b with
      | false =>
        refine ih (cur ++ t) ?_ ?_ hrest s (by simpa [glueAux] using hs)
        · rw [strData_append]
          intro hc
          exact h1 (List.append_eq_nil.mp hc).1
        · rw [strData_append]
          intro hc
          rcases List.mem_append.mp hc with hc | hc
          · exact h2 hc
          · exact ht2 hc
      | true =>
        have hs2 : s = cur ∨ s ∈ glueAux t rest := by
          simpa [glueAux] using hs
        rcases hs2 with hs2 | hs2
        · rw [hs2]
          exact ⟨h1, h2⟩
        · exact ih t ht1 ht2 hrest s hs2

theorem glueTop_good (tl : List (Option (Bool × String)))
    (h : tokensOK false tl) :
    ∀ s ∈ glueTop tl, s.data ≠ [] ∧ ',' ∉ s.data := by
  induction tl with
  | nil => intro s hs; simp [glueTop] at hs
  | cons tok rest ih =>
    cases tok with
    | none => exact ih h
    | some bs =>
      obtain ⟨b, t⟩ := bs
      obtain ⟨-, ht1, ht2, hrest⟩ := h
      intro s hs
      exact glueAux_good rest t ht1 ht2 hrest s hs

theorem hasDoubleComma_cons_of_ne (a : Char) (l : List Char) (h : ¬a = ',') :
    hasDoubleComma (a :: l) = hasDoubleComma l := by
  cases l with
  | nil => rfl
  | cons b t => simp [hasDoubleComma, h]

theorem hasDoubleComma_of_commaFree (l : List Char) (h : ',' ∉ l) :
    hasDoubleComma l = false := by
  induction l with
  | nil => rfl
  | cons a t ih =>
    rw [hasDoubleComma_cons_of_ne a t (fun hc => h (hc ▸ List.mem_cons_self a t))]
    exact ih fun hc => h (List.mem_cons_of_mem a hc)

theorem hasDoubleComma_parts (x J : List Char) (hx : ',' ∉ x)
    (hJh : J.head? ≠ some ',') (hJ : hasDoubleComma J = false) :
    hasDoubleComma (x ++ ',' :: J) = false := by
  induction x with
  | nil =>
    cases J with
    | nil => rfl
    | cons j t =>
      have hj : ¬(j = ',') := by
        intro hc
        exact hJh (by rw [hc]; rfl)
      simp [hasDoubleComma, hj, hJ]
  | cons a x2 ih =>
    have ha : ¬a = ',' := fun hc => hx (hc ▸ List.mem_cons_self a x2)
    rw [List.cons_append, hasDoubleComma_cons_of_ne a _ ha]
    exact ih fun hc => hx (List.mem_cons_of_mem a hc)

theorem head?_ne_comma (x : List Char) (h : ',' ∉ x) : x.head? ≠ some ',' := by
  cases x with
  | nil => simp
  | cons c t =>
    simp only [List.head?_cons, ne_eq, Option.some.injEq]
    intro hc
    exact h (hc ▸ List.mem_cons_self c t)

theorem getLast?_ne_comma (x : List Char) (h : ',' ∉ x) :
    x.getLast? ≠ some ',' := by
  intro hc
  exact h (List.mem_of_getLast?_eq_some hc)

theorem joinComma_clean (l : List String)
    (h : ∀ s ∈ l, s.data ≠ [] ∧ ',' ∉ s.data) :
    (l ≠ [] → (joinComma l).data ≠ []) ∧
    (joinComma l).data.head? ≠ some ',' ∧
    (joinComma l).data.getLast? ≠ some ',' ∧
    hasDoubleComma (joinComma l).data = false := by
  induction l with
  | nil =>
    refine ⟨fun hc => absurd rfl hc, ?_, ?_, rfl⟩ <;> simp [joinComma]
  | cons x rest ih =>
    obtain ⟨hx1, hx2⟩ := h x (List.mem_cons_self x rest)
    cases rest with
    | nil =>
      show (_ ≠ [] → x.data ≠ []) ∧ x.data.head? ≠ some ',' ∧
        x.data.getLast? ≠ some ',' ∧ hasDoubleComma x.data = false
      exact ⟨fun _ => hx1, head?_ne_comma x.data hx2, getLast?_ne_comma x.data hx2,
        hasDoubleComma_of_commaFree x.data hx2⟩
    | cons y rest2 =>
      obtain ⟨hJne, hJh, hJl, hJd⟩ := ih fun s hs => h s (List.mem_cons_of_mem x hs)
      have hJne2 : (joinComma (y :: rest2)).data ≠ [] := hJne (by simp)
      have hjoin : (joinComma (x :: y :: rest2)).data =
          x.data ++ ',' :: (joinComma (y :: rest2)).data := by
        rw [joinComma_cons x _ (by simp), strData_append, strData_append]
        simp
      rw [hjoin]
      refine ⟨fun _ => by simp, ?_, ?_, ?_⟩
      · cases hd : x.data with
        | nil => exact absurd hd hx1
        | cons c t =>
          have hc : ¬c = ',' := fun hcc => hx2 (hd ▸ hcc ▸ List.mem_cons_self c t)
          simp [hd, hc]
      · rw [List.getLast?_append,
          show (',' :: (joinComma (y :: rest2)).data) =
            [','] ++ (joinComma (y :: rest2)).data from rfl,
          List.getLast?_append]
        cases hl : (joinComma (y :: rest2)).data.getLast? with
        | none => exact absurd (List.getLast?_eq_none_iff.mp hl) hJne2
        | some z =>
          rw [hl] at hJl
          simpa using hJl
      · exact hasDoubleComma_parts x.data _ hx2 hJh hJd

theorem splitAtComma_ne_nil (l : List Char) : splitAtComma l ≠ [] := by
  cases l with
  | nil => simp [splitAtComma]
  | cons c rest =>
    by_cases hc : c = ','
    · simp [splitAtComma, hc]
    · simp only [splitAtComma, if_neg hc]
      cases h : splitAtComma rest <;> simp

theorem splitAtComma_commaFree (m : List Char) (h : ',' ∉ m) :
    splitAtComma m = [m] := by
  induction m with
  | nil => rfl
  | cons c rest ih =>
    have hc : ¬c = ',' := fun hcc => h (hcc ▸ List.mem_cons_self c rest)
    have := ih fun hm => h (List.mem_cons_of_mem c hm)
    simp [splitAtComma, hc, this]

theorem splitAtComma_chunk (x r : List Char) (hx : ',' ∉ x) :
    splitAtComma (x ++ ',' :: r) = x :: splitAtComma r := by
  induction x with
  | nil => simp [splitAtComma]
  | cons a x2 ih =>
    have ha : ¬a = ',' := fun hc => hx (hc ▸ List.mem_cons_self a x2)
    have := ih fun hm => hx (List.mem_cons_of_mem a hm)
    rw [List.cons_append]
    simp only [splitAtComma, if_neg ha, this]

theorem splitKV_spec (k : List Char) : ∀ acc v, '=' ∉ k →
    splitKVAux acc (k ++ '=' :: v) = (⟨acc.reverse ++ k⟩, ⟨v⟩) := by
  induction k with
  | nil =>
    intro acc v _
    simp [splitKVAux]
  | cons a k2 ih =>
    intro acc v h
    have ha : ¬a = '=' := fun hc => h (hc ▸ List.mem_cons_self a k2)
    rw [List.cons_append]
    simp only [splitKVAux, if_neg ha]
    rw [ih (a :: acc) v fun hm => h (List.mem_cons_of_mem a hm)]
    simp

theorem parse_joinComma (fields : List (String × String))
    (h : ∀ kv ∈ fields, kv.1.data ≠ [] ∧ '=' ∉ kv.1.data ∧
      ',' ∉ kv.1.data ∧ ',' ∉ kv.2.data) :
    parseAnn (joinComma (fields.map fun kv => kv.1 ++ "=" ++ kv.2)) =
      fields := by
  induction fields with
  | nil => rfl
  | cons kv rest ih =>
    obtain ⟨hk1, hk2, hk3, hv⟩ := h kv (List.mem_cons_self kv rest)
    have hchunkdata : (kv.1 ++ "=" ++ kv.2).data = kv.1.data ++ '=' :: kv.2.data := by
      rw [strData_append, strData_append]
      simp
    have hchunkne : (kv.1 ++ "=" ++ kv.2).data ≠ [] := by
      rw [hchunkdata]
      intro hc
      exact hk1 (List.append_eq_nil.mp hc).1
    have hchunkfree : ',' ∉ (kv.1 ++ "=" ++ kv.2).data := by
      rw [hchunkdata]
      intro hc
      rcases List.mem_append.mp hc with hc | hc
      · exact hk3 hc
      · rcases List.mem_cons.mp hc with hc | hc
        · exact absurd hc.symm (by decide)
        · exact hv hc
    cases rest with
    | nil =>
      show parseAnn (kv.1 ++ "=" ++ kv.2) = [kv]
      unfold parseAnn
      rw [if_neg hchunkne, hchunkdata, splitAtComma_commaFree _ (hchunkdata ▸ hchunkfree)]
      simp only [List.map_cons, List.map_nil]
      rw [show splitKVAux [] (kv.1.data ++ '=' :: kv.2.data) =
        (⟨List.reverse [] ++ kv.1.data⟩, ⟨kv.2.data⟩) from splitKV_spec kv.1.data [] kv.2.data hk2]
      simp [mk_data]
    | cons kv2 rest2 =>
      have hrest := fun s hs => h s (List.mem_cons_of_mem kv hs)
      have ihr := ih hrest
      obtain ⟨hr1, -, hr3, -⟩ := hrest kv2 (List.mem_cons_self kv2 rest2)
      have hJne : (joinComma ((kv2 :: rest2).map fun kv => kv.1 ++ "=" ++ kv.2)).data ≠ [] := by
        have := (joinComma_clean ((kv2 :: rest2).map fun kv => kv.1 ++ "=" ++ kv.2)
          (by
            intro s hs
            obtain ⟨p, hp, rfl⟩ := List.mem_map.mp hs
            obtain ⟨hp1, hp2, hp3, hp4⟩ := hrest p hp
            constructor
            · rw [strData_append, strData_append]
              intro hc
              exact hp1 (List.append_eq_nil.mp (List.append_eq_nil.mp hc).1).1
            · rw [strData_append, strData_append]
              intro hc
              rcases List.mem_append.mp hc with hc | hc
              · rcases List.mem_append.mp hc with hc | hc
                · exact hp3 hc
                · exact absurd hc (by decide)
              · exact hp4 hc)).1
        exact this (by simp)
      show parseAnn ((kv.1 ++ "=" ++ kv.2) ++ "," ++
        joinComma ((kv2 :: rest2).map fun kv => kv.1 ++ "=" ++ kv.2)) = kv :: kv2 :: rest2
      unfold parseAnn
      rw [if_neg (by
        rw [strData_append, strData_append]
        intro hc
        exact hchunkne (List.append_eq_nil.mp (List.append_eq_nil.mp hc).1).1)]
      rw [strData_append, strData_append,
        show ("," : String).data = [','] from rfl, List.append_assoc,
        List.singleton_append, splitAtComma_chunk _ _ hchunkfree]
      rw [List.map_cons]
      have htail : parseAnn (joinComma ((kv2 :: rest2).map fun kv => kv.1 ++ "=" ++ kv.2)) =
          kv2 :: rest2 := ihr
      unfold parseAnn at htail
      rw [if_neg hJne] at htail
      rw [htail]
      rw [hchunkdata,
        show splitKVAux [] (kv.1.data ++ '=' :: kv.2.data) =
          (⟨List.reverse [] ++ kv.1.data⟩, ⟨kv.2.data⟩) from splitKV_spec kv.1.data [] kv.2.data hk2]
      simp [mk_data]

theorem digitChar_ne_comma (d : Nat) : digitChar d ≠ ',' := by
  unfold digitChar
  split_ifs <;> decide

theorem natReprAux_mem (P : Char → Prop) (hd : ∀ d, P (digitChar d)) :
    ∀ fuel n acc, (∀ c ∈ acc, P c) → ∀ c ∈ natReprAux fuel n acc, P c := by
  intro fuel
  induction fuel with
  | zero => exact fun n acc hacc c hc => hacc c hc
  | succ f ih =>
    intro n acc hacc c hc
    by_cases hn : n = 0
    · simp only [natReprAux, if_pos hn] at hc
      exact hacc c hc
    · simp only [natReprAux, if_neg hn] at hc
      refine ih (n / 10) _ (fun x hx => ?_) c hc
      rcases List.mem_cons.mp hx with rfl | hx
      · exact hd _
      · exact hacc x hx

theorem natRepr_commaFree (n : Nat) : ',' ∉ (natRepr n).data := by
  unfold natRepr
  by_cases hn : n = 0
  · rw [if_pos hn]
    decide
  · rw [if_neg hn]
    intro hc
    exact absurd rfl (natReprAux_mem (fun c => c ≠ ',')
      (fun d => digitChar_ne_comma d) n n [] (by simp) ',' hc)

theorem natReprAux_len : ∀ fuel n acc, acc.length ≤ (natReprAux fuel n acc).length := by
  intro fuel
  induction fuel with
  | zero => intro n acc; exact Nat.le_refl _
  | succ f ih =>
    intro n acc
    by_cases hn : n = 0
    · simp [natReprAux, if_pos hn]
    · simp only [natReprAux, if_neg hn]
      exact Nat.le_trans (by simp) (ih (n / 10) (digitChar (n % 10) :: acc))

theorem natRepr_ne_nil (n : Nat) : (natRepr n).data ≠ [] := by
  unfold natRepr
  by_cases hn : n = 0
  · rw [if_pos hn]
    decide
  · rw [if_neg hn]
    cases n with
    | zero => exact absurd rfl hn
    | succ m =>
      show natReprAux (m + 1) (m + 1) [] ≠ []
      simp only [natReprAux, if_neg (Nat.succ_ne_zero m)]
      intro hc
      have := natReprAux_len m ((m + 1) / 10) [digitChar ((m + 1) % 10)]
      rw [hc] at this
      simp at this

theorem propEscape_commaFree (l : List Char) :
    ',' ∉ escapeChars propertyEscapeChar l := by
  induction l with
  | nil => simp [escapeChars]
  | cons c rest ih =>
    intro h
    rcases List.mem_append.mp h with h | h
    · revert h
      unfold propertyEscapeChar
      split_ifs with h1 h2 h3 h4 h5
      · decide
      · decide
      · decide
      · decide
      · decide
      · intro hc
        exact h5 (List.mem_singleton.mp hc).symm
    · exact ih h

theorem keyText_good (k v : String) (hk : k.data ≠ []) (hkc : ',' ∉ k.data)
    (hvc : ',' ∉ v.data) : (k ++ v).data ≠ [] ∧ ',' ∉ (k ++ v).data := by
  rw [strData_append]
  constructor
  · intro hc
    exact hk (List.append_eq_nil.mp hc).1
  · intro hc
    rcases List.mem_append.mp hc with hc | hc
    · exact hkc hc
    · exact hvc hc

theorem renderAnn_eq_emit (a : annotation) :
    renderAnn a = emitTokens (fieldTokens a) := by
  apply str_ext
  unfold renderAnn titlePiece filePiece linePiece endLinePiece colPiece
    endColPiece fieldTokens
  by_cases h1 : a.Title = "" <;> by_cases h2 : a.File = "" <;>
    by_cases h3 : a.StartLine = 0 <;> by_cases h4 : a.EndLine = 0 <;>
    by_cases h5 : a.StartColumn = 0 <;> by_cases h6 : a.EndColumn = 0 <;>
    simp [h1, h2, h3, h4, h5, h6, emitTokens, strData_append, List.append_assoc]

theorem fieldTokens_OK (a : annotation) : tokensOK false (fieldTokens a) := by
  have hT := keyText_good "title=" (propertyEscape a.Title) (by decide) (by decide)
    (propEscape_commaFree a.Title.data)
  have hF := keyText_good "file=" (propertyEscape a.File) (by decide) (by decide)
    (propEscape_commaFree a.File.data)
  have hL := keyText_good "line=" (natRepr a.StartLine) (by decide) (by decide)
    (natRepr_commaFree a.StartLine)
  have hEL := keyText_good "endLine=" (natRepr a.EndLine) (by decide) (by decide)
    (natRepr_commaFree a.EndLine)
  have hC := keyText_good "col=" (natRepr a.StartColumn) (by decide) (by decide)
    (natRepr_commaFree a.StartColumn)
  have hEC := keyText_good "endColumn=" (natRepr a.EndColumn) (by decide) (by decide)
    (natRepr_commaFree a.EndColumn)
  unfold fieldTokens
  by_cases h1 : a.Title = "" <;> by_cases h2 : a.File = "" <;>
    by_cases h3 : a.StartLine = 0 <;> by_cases h4 : a.EndLine = 0 <;>
    by_cases h5 : a.StartColumn = 0 <;> by_cases h6 : a.EndColumn = 0 <;>
    simp [h1, h2, h3, h4, h5, h6, tokensOK, hT.1, hT.2, hF.1, hF.2, hL.1, hL.2,
      hEL.1, hEL.2, hC.1, hC.2, hEC.1, hEC.2, natRepr_commaFree, propEscape_commaFree,
      propertyEscape, natRepr_ne_nil]

theorem render_clean (a : annotation) :
    (renderAnn a).data.head? ≠ some ',' ∧
    (renderAnn a).data.getLast? ≠ some ',' ∧
    hasDoubleComma (renderAnn a).data = false := by
  rw [renderAnn_eq_emit, emit_eq_joinComma _ (fieldTokens_OK a)]
  have h := joinComma_clean (glueTop (fieldTokens a))
    (glueTop_good _ (fieldTokens_OK a))
  exact ⟨h.2.1, h.2.2.1, h.2.2.2⟩

theorem linesClamp_pos (s e : Nat) :
    (linesClamp s e).1 ≠ 0 ∧ (linesClamp s e).2 ≠ 0 := by
  constructor <;> simp only [linesClamp] <;> split_ifs <;> omega

theorem spanClamp_pair (s e : Nat) :
    ((spanClamp s e).1 = 0 ↔ (spanClamp s e).2 = 0) := by
  simp only [spanClamp]
  split_ifs with h <;> simp <;> omega

theorem pairing_foldl (steps : List Annot) : ∀ a : annotation,
    (a.StartLine = 0 ↔ a.EndLine = 0) → (a.StartColumn = 0 ↔ a.EndColumn = 0) →
    ((steps.foldl applyStep a).StartLine = 0 ↔
      (steps.foldl applyStep a).EndLine = 0) ∧
    ((steps.foldl applyStep a).StartColumn = 0 ↔
      (steps.foldl applyStep a).EndColumn = 0) := by
  induction steps with
  | nil => exact fun a h1 h2 => ⟨h1, h2⟩
  | cons st rest ih =>
    intro a h1 h2
    have hstep : ((applyStep a st).StartLine = 0 ↔
        (applyStep a st).EndLine = 0) ∧
        ((applyStep a st).StartColumn = 0 ↔
          (applyStep a st).EndColumn = 0) := by
      cases st with
      | title t => exact ⟨h1, h2⟩
      | file f => exact ⟨h1, h2⟩
      | lines s e =>
        constructor <;> (simp only [applyStep]; split)
        · simp
        · simpa using iff_of_false (linesClamp_pos s e).1 (linesClamp_pos s e).2
        · simpa using h2
        · simpa using h2
      | span s e =>
        constructor <;> (simp only [applyStep]; split)
        · simpa using h1
        · simpa using h1
        · simp
        · simpa using spanClamp_pair s e
    exact ih (applyStep a st) hstep.1 hstep.2

theorem key_eq_split (k ke : String) (h : ke.data = k.data ++ ['=']) :
    ∀ x, ke ++ x = k ++ "=" ++ x := by
  intro x
  apply str_ext
  rw [strData_append, strData_append, strData_append, h,
    show ("=" : String).data = ['='] from rfl, List.append_assoc]

theorem glueTop_fieldTokens (a : annotation)
    (hp1 : a.StartLine = 0 ↔ a.EndLine = 0)
    (hp2 : a.StartColumn = 0 ↔ a.EndColumn = 0)
    (wc : wellCoupled a) :
    glueTop (fieldTokens a) = (presentFields a).map fun kv => kv.1 ++ "=" ++ kv.2 := by
  obtain ⟨w1, w2⟩ := wc
  have eT := key_eq_split "title" "title=" (by decide)
  have eF := key_eq_split "file" "file=" (by decide)
  have eL := key_eq_split "line" "line=" (by decide)
  have eEL := key_eq_split "endLine" "endLine=" (by decide)
  have eC := key_eq_split "col" "col=" (by decide)
  have eEC := key_eq_split "endColumn" "endColumn=" (by decide)
  unfold fieldTokens presentFields
  by_cases h1 : a.Title = "" <;> by_cases h2 : a.File = "" <;>
    by_cases h3 : a.StartLine = 0 <;> by_cases h5 : a.StartColumn = 0
  all_goals (first
    | exact absurd h2 (w1 h3)
    | exact absurd (hp1.mp h3) (w2 h5)
    | (try have h4 : a.EndLine = 0 := hp1.mp h3
       try have h4 : ¬a.EndLine = 0 := fun hc => h3 (hp1.mpr hc)
       try have h6 : a.EndColumn = 0 := hp2.mp h5
       try have h6 : ¬a.EndColumn = 0 := fun hc => h5 (hp2.mpr hc)
       simp [h1, h2, h3, h4, h5, h6, glueTop, glueAux, eT, eF, eL, eEL, eC, eEC]))

theorem mem_ite_singleton_append (kv : String × String) (c : Prop) [Decidable c]
    (x : String × String) (l : List (String × String))
    (h : kv ∈ (if c then [x] else []) ++ l) : kv = x ∨ kv ∈ l := by
  rcases List.mem_append.mp h with h | h
  · left
    split_ifs at h
    · simpa using h
    · simp at h
  · right
    exact h

theorem mem_ite_singleton (kv : String × String) (c : Prop) [Decidable c]
    (x : String × String) (h : kv ∈ (if c then [x] else ([] : List (String × String)))) :
    kv = x := by
  split_ifs at h
  · simpa using h
  · simp at h

theorem presentFields_good (a : annotation) : ∀ kv ∈ presentFields a,
    kv.1.data ≠ [] ∧ '=' ∉ kv.1.data ∧ ',' ∉ kv.1.data ∧ ',' ∉ kv.2.data := by
  intro kv h
  unfold presentFields at h
  simp only [List.append_assoc] at h
  rcases mem_ite_singleton_append kv _ _ _ h with rfl | h
  · exact ⟨(by decide : ("title" : String).data ≠ []), (by decide : '=' ∉ ("title" : String).data), (by decide : ',' ∉ ("title" : String).data), propEscape_commaFree a.Title.data⟩
  rcases mem_ite_singleton_append kv _ _ _ h with rfl | h
  · exact ⟨(by decide : ("file" : String).data ≠ []), (by decide : '=' ∉ ("file" : String).data), (by decide : ',' ∉ ("file" : String).data), propEscape_commaFree a.File.data⟩
  rcases mem_ite_singleton_append kv _ _ _ h with rfl | h
  · exact ⟨(by decide : ("line" : String).data ≠ []), (by decide : '=' ∉ ("line" : String).data), (by decide : ',' ∉ ("line" : String).data), natRepr_commaFree a.StartLine⟩
  rcases mem_ite_singleton_append kv _ _ _ h with rfl | h
  · exact ⟨(by decide : ("endLine" : String).data ≠ []), (by decide : '=' ∉ ("endLine" : String).data), (by decide : ',' ∉ ("endLine" : String).data), natRepr_commaFree a.EndLine⟩
  rcases mem_ite_singleton_append kv _ _ _ h with rfl | h
  · exact ⟨(by decide : ("col" : String).data ≠ []), (by decide : '=' ∉ ("col" : String).data), (by decide : ',' ∉ ("col" : String).data), natRepr_commaFree a.StartColumn⟩
  rw [mem_ite_singleton kv _ _ h]
  exact ⟨(by decide : ("endColumn" : String).data ≠ []), (by decide : '=' ∉ ("endColumn" : String).data), (by decide : ',' ∉ ("endColumn" : String).data), natRepr_commaFree a.EndColumn⟩

/-- Counterexample to C8: after Title "t", File "f", Lines 1 2, File ""
the render glues the adjacent present title and line fields together
with NO separating comma, producing title=tline=1,endLine=2; re-parsing
yields a corrupted title value and an endLine field without line, not
the set of fields passing the coupling invariants (here only the title,
since the line range has no file). -/
theorem claim_C8_counterexample :
    renderAnn (applyAll [.title "t", .file "f", .lines 1 2, .file ""]) =
      "title=tline=1,endLine=2" ∧
    parseAnn (renderAnn
        (applyAll [.title "t", .file "f", .lines 1 2, .file ""])) =
      [("title", "tline=1"), ("endLine", "2")] ∧
    parseAnn (renderAnn
        (applyAll [.title "t", .file "f", .lines 1 2, .file ""])) ≠
      [("title", "t")] :=
  ⟨by decide, by decide, by decide⟩

/-- C8 (amended): for every list of configuration steps the rendered
annotation has no leading, trailing, or doubled comma; and whenever the
final assembled annotation satisfies the coupling invariants (line range
only with a file, column span only with an end line), re-parsing the
rendered key=value,... string yields exactly the present fields, in the
fixed template order.  When a field is cleared after later fields were
set, the final state can violate the invariants and two adjacent
present fields may be glued without a separating comma, so re-parsing
need not recover the fields. -/
theorem claim_C8 (steps : List Annot) :
    (renderAnn (applyAll steps)).data.head? ≠ some ',' ∧
    (renderAnn (applyAll steps)).data.getLast? ≠ some ',' ∧
    hasDoubleComma (renderAnn (applyAll steps)).data = false ∧
    (wellCoupled (applyAll steps) →
      parseAnn (renderAnn (applyAll steps)) =
        presentFields (applyAll steps)) := by
  have hclean := render_clean (applyAll steps)
  refine ⟨hclean.1, hclean.2.1, hclean.2.2, fun wc => ?_⟩
  have hp : ((applyAll steps).StartLine = 0 ↔ (applyAll steps).EndLine = 0) ∧
      ((applyAll steps).StartColumn = 0 ↔ (applyAll steps).EndColumn = 0) :=
    pairing_foldl steps {} (by simp) (by simp)
  rw [renderAnn_eq_emit, emit_eq_joinComma _ (fieldTokens_OK _),
    glueTop_fieldTokens _ hp.1 hp.2 wc]
  exact parse_joinComma _ (presentFields_good _)

/-- Witness for C8 at a fully coupled annotation. -/
theorem claim_C8_witness :
    (renderAnn (applyAll [.title "T", .file "f", .lines 2 2, .span 4 7])).data.head? ≠
      some ',' ∧
    (renderAnn (applyAll [.title "T", .file "f", .lines 2 2, .span 4 7])).data.getLast? ≠
      some ',' ∧
    hasDoubleComma (renderAnn
      (applyAll [.title "T", .file "f", .lines 2 2, .span 4 7])).data = false ∧
    parseAnn (renderAnn
        (applyAll [.title "T", .file "f", .lines 2 2, .span 4 7])) =
      presentFields (applyAll [.title "T", .file "f", .lines 2 2, .span 4 7]) :=
  ⟨(claim_C8 [.title "T", .file "f", .lines 2 2, .span 4 7]).1,
   (claim_C8 [.title "T", .file "f", .lines 2 2, .span 4 7]).2.1,
   (claim_C8 [.title "T", .file "f", .lines 2 2, .span 4 7]).2.2.1,
   (claim_C8 [.title "T", .file "f", .lines 2 2, .span 4 7]).2.2.2 (by decide)⟩

end Actions
